import Mathlib

/-!
Verification development for the request batching and dispatch engine of an
LLM observability SDK.  The Python sources embedded here are:

* alltrue_guardrails/control/batch.py   (group-by-key batch dispatcher, batched facade)
* alltrue_guardrails/control/__init__.py (token gated call wrapper)
* alltrue_guardrails/control/chat.py    (process_request / process_response)
* alltrue/control/batch.py              (clone copy constructor, close)
* alltrue/guardrails/chat.py            (blocking guard path, request id cache)

Machine integers do not occur; Python strings are Lean Strings, Python dicts
holding JSON data are modelled by the JsonVal type below, and fallible code
returns Option or Except.
-/

/- ===================== JSON values (model of Python json module) ============

A JSON value, as produced by json.loads and consumed by json.dumps.  Numbers
are restricted to integers: no claim in this development depends on floating
point payloads, and the parser simply rejects fractional literals. -/

mutual

inductive JsonVal where
  | null : JsonVal
  | bool (b : Bool) : JsonVal
  | num (n : Int) : JsonVal
  | str (s : String) : JsonVal
  | arr (elems : JsonArr) : JsonVal
  | obj (fields : JsonObj) : JsonVal
deriving DecidableEq

inductive JsonArr where
  | nil : JsonArr
  | cons (hd : JsonVal) (tl : JsonArr) : JsonArr
deriving DecidableEq

inductive JsonObj where
  | nil : JsonObj
  | cons (key : String) (val : JsonVal) (tl : JsonObj) : JsonObj
deriving DecidableEq

end

def JsonArr.ofList : List JsonVal → JsonArr
  | [] => .nil
  | j :: rest => .cons j (JsonArr.ofList rest)

def JsonArr.length : JsonArr → Nat
  | .nil => 0
  | .cons _ tl => 1 + JsonArr.length tl

/-- Lookup of a key in a JSON object.  Python dict construction keeps the last
binding of a duplicated key, so the lookup scans for the last match. -/
def JsonObj.lookup : JsonObj → String → Option JsonVal
  | .nil, _ => none
  | .cons k v tl, key =>
      match JsonObj.lookup tl key with
      | some r => some r
      | none => if k = key then some v else none

/-- Model of dict.get on a JSON object value; returns none on a non object,
where Python raises instead (callers translate that to their except branch). -/
def JsonVal.getKey : JsonVal → String → Option JsonVal
  | .obj o, key => o.lookup key
  | _, _ => none

def JsonVal.isNull : JsonVal → Bool
  | .null => true
  | _ => false

/- ===================== json.dumps ==========================================

Mirrors json.dumps with the default separators (comma space, colon space).
String escaping covers the quote, backslash and the common control characters;
other characters are passed through unchanged. -/

def jsonEscapeChar (c : Char) : String :=
  if c = '"' then "\\\""
  else if c = '\\' then "\\\\"
  else if c = '\n' then "\\n"
  else if c = '\t' then "\\t"
  else if c = '\r' then "\\r"
  else String.singleton c

def jsonEscape (s : String) : String :=
  String.join (s.toList.map jsonEscapeChar)

def jsonQuote (s : String) : String :=
  "\"" ++ jsonEscape s ++ "\""

mutual

def JsonVal.dumps : JsonVal → String
  | .null => "null"
  | .bool true => "true"
  | .bool false => "false"
  | .num n => toString n
  | .str s => jsonQuote s
  | .arr a => "[" ++ JsonArr.dumpsItems a ++ "]"
  | .obj o => "\x7b" ++ JsonObj.dumpsItems o ++ "\x7d"
termination_by structural j => j

def JsonArr.dumpsItems : JsonArr → String
  | .nil => ""
  | .cons j tl => JsonVal.dumps j ++ JsonArr.dumpsRest tl
termination_by structural a => a

def JsonArr.dumpsRest : JsonArr → String
  | .nil => ""
  | .cons j tl => ", " ++ JsonVal.dumps j ++ JsonArr.dumpsRest tl
termination_by structural a => a

def JsonObj.dumpsItems : JsonObj → String
  | .nil => ""
  | .cons k v tl => jsonQuote k ++ ": " ++ JsonVal.dumps v ++ JsonObj.dumpsRest tl
termination_by structural o => o

def JsonObj.dumpsRest : JsonObj → String
  | .nil => ""
  | .cons k v tl =>
      ", " ++ jsonQuote k ++ ": " ++ JsonVal.dumps v ++ JsonObj.dumpsRest tl
termination_by structural o => o

end

/- ===================== json.loads ==========================================

A fuel driven recursive descent parser for the JSON fragment used by the
control plane payloads (null, booleans, integers, strings with simple escape
sequences, arrays and objects).  The fuel only bounds nesting driven
recursion; the top level entry point supplies ample fuel, and parse failure is
the model of json.loads raising JSONDecodeError. -/

def jsonSkipWs : List Char → List Char
  | c :: rest =>
      if c = ' ' ∨ c = '\t' ∨ c = '\n' ∨ c = '\r' then jsonSkipWs rest else c :: rest
  | [] => []

def jsonParseStringBody : List Char → Option (String × List Char)
  | [] => none
  | c :: rest =>
      if c = '"' then some ("", rest)
      else if c = '\\' then
        match rest with
        | [] => none
        | e :: rest2 =>
            let esc : Option Char :=
              if e = '"' then some '"'
              else if e = '\\' then some '\\'
              else if e = '/' then some '/'
              else if e = 'n' then some '\n'
              else if e = 't' then some '\t'
              else if e = 'r' then some '\r'
              else none
            match esc with
            | none => none
            | some ch =>
                match jsonParseStringBody rest2 with
                | none => none
                | some (s, rem) => some (String.singleton ch ++ s, rem)
      else if c.toNat < 32 then none
      else
        match jsonParseStringBody rest with
        | none => none
        | some (s, rem) => some (String.singleton c ++ s, rem)

def jsonDigitsToNat : List Char → Nat → Nat
  | [], acc => acc
  | c :: rest, acc => jsonDigitsToNat rest (acc * 10 + (c.toNat - 48))

/-- Parses an integer literal; rejects fractional and exponent forms. -/
def jsonParseNumber (s : List Char) : Option (JsonVal × List Char) :=
  let (neg, s1) := match s with
    | '-' :: rest => (true, rest)
    | _ => (false, s)
  let digits := s1.takeWhile (fun c => c.isDigit)
  let rest := s1.dropWhile (fun c => c.isDigit)
  if digits.isEmpty then none
  else
    match rest with
    | c :: _ =>
        if c = '.' ∨ c = 'e' ∨ c = 'E' then none
        else
          let n : Int := Int.ofNat (jsonDigitsToNat digits 0)
          some (.num (if neg then -n else n), rest)
    | [] =>
        let n : Int := Int.ofNat (jsonDigitsToNat digits 0)
        some (.num (if neg then -n else n), rest)

def jsonExpect (lit : List Char) (s : List Char) : Option (List Char) :=
  match lit, s with
  | [], rest => some rest
  | c :: lit2, d :: rest => if c = d then jsonExpect lit2 rest else none
  | _ :: _, [] => none

mutual

def jsonParseVal : Nat → List Char → Option (JsonVal × List Char)
  | 0, _ => none
  | Nat.succ fuel, s =>
      match jsonSkipWs s with
      | [] => none
      | c :: rest =>
          if c = 'n' then (jsonExpect ['u', 'l', 'l'] rest).map (fun r => (.null, r))
          else if c = 't' then (jsonExpect ['r', 'u', 'e'] rest).map (fun r => (.bool true, r))
          else if c = 'f' then (jsonExpect ['a', 'l', 's', 'e'] rest).map (fun r => (.bool false, r))
          else if c = '"' then (jsonParseStringBody rest).map (fun (str, r) => (.str str, r))
          else if c = '[' then
            match jsonSkipWs rest with
            | ']' :: r => some (.arr .nil, r)
            | other => (jsonParseArrItems fuel other).map (fun (a, r) => (.arr a, r))
          else if c = '\x7b' then
            match jsonSkipWs rest with
            | '\x7d' :: r => some (.obj .nil, r)
            | other => (jsonParseObjItems fuel other).map (fun (o, r) => (.obj o, r))
          else jsonParseNumber (c :: rest)

def jsonParseArrItems : Nat → List Char → Option (JsonArr × List Char)
  | 0, _ => none
  | Nat.succ fuel, s =>
      match jsonParseVal fuel s with
      | none => none
      | some (j, rest) =>
          match jsonSkipWs rest with
          | ']' :: r => some (.cons j .nil, r)
          | ',' :: r =>
              match jsonParseArrItems fuel r with
              | none => none
              | some (tl, rem) => some (.cons j tl, rem)
          | _ => none

def jsonParseObjItems : Nat → List Char → Option (JsonObj × List Char)
  | 0, _ => none
  | Nat.succ fuel, s =>
      match jsonSkipWs s with
      | '"' :: rest =>
          match jsonParseStringBody rest with
          | none => none
          | some (key, rest2) =>
              match jsonSkipWs rest2 with
              | ':' :: rest3 =>
                  match jsonParseVal fuel rest3 with
                  | none => none
                  | some (v, rest4) =>
                      match jsonSkipWs rest4 with
                      | '\x7d' :: r => some (.cons key v .nil, r)
                      | ',' :: r =>
                          match jsonParseObjItems fuel r with
                          | none => none
                          | some (tl, rem) => some (.cons key v tl, rem)
                      | _ => none
              | _ => none
      | _ => none

end

/-- Model of json.loads: the whole input must be consumed up to trailing
whitespace, otherwise the parse fails. -/
def jsonLoads (s : String) : Option JsonVal :=
  match jsonParseVal (2 * s.length + 4) s.toList with
  | some (j, rest) => if jsonSkipWs rest = [] then some j else none
  | none => none

example : jsonLoads "\x7b\x7d" = some (.obj .nil) := by decide
example : jsonLoads "\x7b\"x\":1\x7d" = some (.obj (.cons "x" (.num 1) .nil)) := by decide
example : jsonLoads "[1, 2]" = some (.arr (.cons (.num 1) (.cons (.num 2) .nil))) := by decide
example : jsonLoads "not json" = none := by decide
example : JsonVal.dumps (.obj (.cons "a" (.num 1) (.cons "b" (.str "x") .nil)))
    = "\x7b\"a\": 1, \"b\": \"x\"\x7d" := by decide

/- ===================== HTTP layer (alltrue_guardrails/http) ================ -/

inductive HttpMethod where
  | GET | POST | PUT | PATCH | DELETE | HEAD | OPTIONS
deriving DecidableEq

/-- String form of the method literal, as interpolated by the Python f string. -/
def HttpMethod.toStr : HttpMethod → String
  | .GET => "GET"
  | .POST => "POST"
  | .PUT => "PUT"
  | .PATCH => "PATCH"
  | .DELETE => "DELETE"
  | .HEAD => "HEAD"
  | .OPTIONS => "OPTIONS"

/-- HttpStatus.is_unauthorized: value in [UNAUTHORIZED, FORBIDDEN]. -/
def HttpStatus.isUnauthorized (v : Nat) : Bool :=
  v = 401 ∨ v = 403

/-- httpx.codes.is_success: 200 <= value <= 299. -/
def HttpStatus.isSuccess (v : Nat) : Bool :=
  200 ≤ v ∧ v ≤ 299

/-- httpx.codes.is_error: 400 <= value <= 599. -/
def HttpStatus.isError (v : Nat) : Bool :=
  400 ≤ v ∧ v ≤ 599

/-- Model of httpx.Response as far as the claims read it: the status code and
the textual content (JSON bodies are serialized through JsonVal.dumps). -/
structure HttpResponse where
  statusCode : Nat
  text : String
deriving DecidableEq

/- ===================== _BatchCaller (control/batch.py) =====================

The submitted unit type _Request, the grouping key function, and the regex
that re parses a grouping key back into method and endpoint. -/

structure BatchRequest where
  endpoint : String
  method : HttpMethod
  body : Option JsonVal
deriving DecidableEq

/-- Model of the lambda key function: the string "[method]endpoint". -/
def keyFunc (r : BatchRequest) : String :=
  "[" ++ r.method.toStr ++ "]" ++ r.endpoint

/-- Splits a character list at the last closing bracket: returns the part
before it and the part after it, or none when no closing bracket occurs. -/
def splitLastBracket : List Char → Option (List Char × List Char)
  | [] => none
  | c :: rest =>
      match splitLastBracket rest with
      | some (l, r) => some (c :: l, r)
      | none => if c = ']' then some ([], rest) else none

/-- Model of re.search applied to the raw pattern bracket (.*) bracket (.*):
the leftmost starting position wins, the first group is greedy, and the dot
does not cross a newline, so the first group runs from an opening bracket to
the last closing bracket on the same line and the second group is the rest of
that line. -/
def regexKeySearch : List Char → Option (String × String)
  | [] => none
  | c :: rest =>
      if c = '[' then
        match splitLastBracket (rest.takeWhile (fun d => d ≠ '\n')) with
        | some (g1, g2) => some (String.mk g1, String.mk g2)
        | none => regexKeySearch rest
      else regexKeySearch rest

/-- Model of str.removeprefix applied with a slash argument. -/
def stripSlash (e : String) : String :=
  match e.toList with
  | '/' :: rest => String.mk rest
  | _ => e

/-- Lexicographic comparison of character lists by code point, the order the
Python sorted builtin applies to the string keys. -/
def charListLe : List Char → List Char → Bool
  | [], _ => true
  | _ :: _, [] => false
  | a :: as, b :: bs => if a = b then charListLe as bs else decide (a < b)

theorem charListLe_refl : ∀ l, charListLe l l = true := by
  intro l
  induction l with
  | nil => rfl
  | cons a as ih => simp [charListLe, ih]

theorem charListLe_total : ∀ l m, charListLe l m = true ∨ charListLe m l = true := by
  intro l
  induction l with
  | nil => intro m; left; rfl
  | cons a as ih =>
    intro m
    cases m with
    | nil => right; rfl
    | cons b bs =>
      by_cases hab : a = b
      · subst hab
        rcases ih bs with h | h
        · left; simpa [charListLe] using h
        · right; simpa [charListLe] using h
      · rcases lt_or_gt_of_ne hab with h | h
        · left; simp [charListLe, hab, h]
        · right
          have hba : b ≠ a := fun e => hab e.symm
          simp [charListLe, hba, h]

theorem charListLe_trans :
    ∀ l m n, charListLe l m = true → charListLe m n = true → charListLe l n = true := by
  intro l
  induction l with
  | nil => intro m n _ _; rfl
  | cons a as ih =>
    intro m n hlm hmn
    cases m with
    | nil => simp [charListLe] at hlm
    | cons b bs =>
      cases n with
      | nil => simp [charListLe] at hmn
      | cons c cs =>
        by_cases hab : a = b <;> by_cases hbc : b = c
        · subst hab; subst hbc
          simp only [charListLe, if_pos rfl] at hlm hmn ⊢
          exact ih _ _ hlm hmn
        · subst hab
          simpa [charListLe, hbc] using hmn
        · subst hbc
          simpa [charListLe, hab] using hlm
        · simp only [charListLe, if_neg hab] at hlm
          simp only [charListLe, if_neg hbc] at hmn
          have h1 : a < b := of_decide_eq_true hlm
          have h2 : b < c := of_decide_eq_true hmn
          have hac : a < c := lt_trans h1 h2
          simp [charListLe, ne_of_lt hac, hac]

theorem charListLe_antisymm :
    ∀ l m, charListLe l m = true → charListLe m l = true → l = m := by
  intro l
  induction l with
  | nil =>
    intro m _ hml
    cases m with
    | nil => rfl
    | cons b bs => simp [charListLe] at hml
  | cons a as ih =>
    intro m hlm hml
    cases m with
    | nil => simp [charListLe] at hlm
    | cons b bs =>
      by_cases hab : a = b
      · subst hab
        simp only [charListLe, if_pos rfl] at hlm hml
        rw [ih bs hlm hml]
      · have hba : b ≠ a := fun e => hab e.symm
        simp only [charListLe, if_neg hab] at hlm
        simp only [charListLe, if_neg hba] at hml
        exact absurd (of_decide_eq_true hml) (lt_asymm (of_decide_eq_true hlm))

def keyLe (a b : BatchRequest) : Prop :=
  charListLe (keyFunc a).toList (keyFunc b).toList = true

instance : DecidableRel keyLe :=
  fun _ _ => inferInstanceAs (Decidable (_ = true))

instance : IsTotal BatchRequest keyLe :=
  ⟨fun _ _ => charListLe_total _ _⟩

instance : IsTrans BatchRequest keyLe :=
  ⟨fun _ _ _ hab hbc => charListLe_trans _ _ _ hab hbc⟩

theorem keyLe_antisymm {a b : BatchRequest} (h1 : keyLe a b) (h2 : keyLe b a) :
    keyFunc a = keyFunc b := by
  have := charListLe_antisymm _ _ h1 h2
  exact String.toList_inj.mp this

/-- Model of the Python sorted builtin with the grouping key: a stable
ascending sort, realised by insertion sort. -/
def sortedBatch (batch : List BatchRequest) : List BatchRequest :=
  List.insertionSort keyLe batch

/-- Fuel driven helper for groupRuns; the fuel is always instantiated with
the length of the list, which suffices since each step drops the head. -/
def groupRunsFuel : Nat → List BatchRequest → List (BatchRequest × List BatchRequest)
  | 0, _ => []
  | _, [] => []
  | Nat.succ fuel, a :: rest =>
      (a, rest.takeWhile (fun b => keyFunc b == keyFunc a)) ::
        groupRunsFuel fuel (rest.dropWhile (fun b => keyFunc b == keyFunc a))

/-- Model of itertools.groupby on the sorted cohort: the maximal runs of
requests sharing a grouping key, each run carried as head plus tail. -/
def groupRuns (l : List BatchRequest) : List (BatchRequest × List BatchRequest) :=
  groupRunsFuel l.length l

/-- Bodies of the units of one group, in order, skipping the None bodies. -/
def groupBodies (g : BatchRequest × List BatchRequest) : List JsonVal :=
  (g.1 :: g.2).filterMap (fun r => r.body)

/-- Downstream call as handed to the wrapped chat function: endpoint, the
method string recovered from the key, optional JSON body, timeout, cache. -/
structure DownstreamCall where
  endpoint : String
  method : String
  body : Option JsonVal
  timeout : Option ℚ
  cache : Bool
deriving DecidableEq

/-- _DEFAULT_BATCH_TIMEOUT, an exact rational standing for the float 3.0. -/
def DEFAULT_BATCH_TIMEOUT : ℚ := 3

/-- The requests envelope: a JSON object with the requests key when the body
list is nonempty, and no body at all otherwise. -/
def envelope (bodies : List JsonVal) : Option JsonVal :=
  if bodies.length > 0 then
    some (.obj (.cons "requests" (.arr (JsonArr.ofList bodies)) .nil))
  else none

/-- Call composed for one group of the loop body: the grouping key is parsed
back through the regex (group one the method, group two the endpoint; a
failed search skips the group), the batch endpoint drops a leading slash of
the parsed endpoint, and the body is the envelope of the non None bodies. -/
def groupCall (g : BatchRequest × List BatchRequest) : Option DownstreamCall :=
  (regexKeySearch (keyFunc g.1).toList).map (fun me =>
    { endpoint := "/batch/" ++ stripSlash me.2
      method := me.1
      body := envelope (groupBodies g)
      timeout := some DEFAULT_BATCH_TIMEOUT
      cache := false })

/-- Model of _BatchCaller.process_batch restricted to the downstream calls it
issues: sort the cohort by key, split into groups, and build one call per
group. -/
def processBatchCalls (batch : List BatchRequest) : List DownstreamCall :=
  (groupRuns (sortedBatch batch)).filterMap groupCall

/-- Modelled from the claim wording for comparison: one call per group whose
target is the literal batch prefix followed by the endpoint of the group
without its leading slash, with the same envelope of non None bodies. -/
def specGroupCalls (batch : List BatchRequest) : List DownstreamCall :=
  (groupRuns (sortedBatch batch)).map (fun g =>
    { endpoint := "/batch/" ++ stripSlash g.1.endpoint
      method := g.1.method.toStr
      body := envelope (groupBodies g)
      timeout := some DEFAULT_BATCH_TIMEOUT
      cache := false })

example :
    processBatchCalls
      [⟨"/a", .POST, some (.num 1)⟩, ⟨"/a", .POST, some (.num 2)⟩, ⟨"/b", .GET, none⟩]
      = [⟨"/batch/b", "GET", none, some 3, false⟩,
         ⟨"/batch/a", "POST",
          some (.obj (.cons "requests"
            (.arr (.cons (.num 1) (.cons (.num 2) .nil))) .nil)),
          some 3, false⟩] := by decide

example :
    (processBatchCalls [⟨"/a]b", .POST, none⟩]).map (fun c => c.endpoint)
      = ["/batch/b"] := by decide

example :
    (specGroupCalls [⟨"/a]b", .POST, none⟩]).map (fun c => c.endpoint)
      = ["/batch/a]b"] := by decide

/- ===================== Python exception model ============================== -/

inductive PyErr where
  | jsonDecodeError
  | typeError
  | timeoutError
  | exc (name : String)
deriving DecidableEq

/- ===================== BatchRuleProcessor._chat (batched facade) ===========

Model of the endpoint pattern match re.search over process-(input|output)
followed by a slash: the leftmost occurrence decides, the alternation tries
input before output, and the trailing dot star always matches. -/

def listStartsWith : List Char → List Char → Bool
  | [], _ => true
  | _ :: _, [] => false
  | p :: ps, c :: cs => p = c && listStartsWith ps cs

def procEndpointType : List Char → Option String
  | [] => none
  | c :: rest =>
      if listStartsWith "/process-input/".toList (c :: rest) then some "input"
      else if listStartsWith "/process-output/".toList (c :: rest) then some "output"
      else procEndpointType rest

def endpointType (e : String) : Option String :=
  procEndpointType e.toList

example : endpointType "/process-input/openai" = some "input" := by decide
example : endpointType "/v1/llm-firewall/chat/process-output/any" = some "output" := by decide
example : endpointType "/check-connection/any" = none := by decide

/-- Outcome of the overridden _chat: either the synthesized batched reply, or
delegation to the non batched parent call path with unchanged arguments. -/
inductive ChatOutcome where
  | batched (resp : HttpResponse)
  | delegated (endpoint : String) (method : HttpMethod) (body : Option JsonObj)
      (timeout : Option ℚ) (cache : Bool)
deriving DecidableEq

/-- Unit submitted by the facade; mirrors the _Request named tuple with the
body restricted to a dict as in the Python type annotation. -/
def mkBatchRequest (endpoint : String) (method : HttpMethod) (body : Option JsonObj) :
    BatchRequest :=
  { endpoint := endpoint, method := method, body := (body.map JsonVal.obj) }

/-- Model of BatchRuleProcessor._chat.  The batcher queue stands for the spec
modelled AsyncBatcher buffer: process appends the unit and returns without
dispatching (spec, section 4.1: submit never blocks beyond buffer insertion).
The first component is the queue after the call; the second is the outcome,
an error standing for a raised exception (json.loads on a malformed original
body field, or a non string field value). -/
def batchChat (queue : List BatchRequest) (endpoint : String) (method : HttpMethod)
    (body : Option JsonObj) (timeout : Option ℚ) (cache : Bool) :
    List BatchRequest × Except PyErr ChatOutcome :=
  match endpointType endpoint with
  | some ty =>
      let queue2 := queue ++ [mkBatchRequest endpoint method body]
      let payloadType := if ty = "input" then "request" else "response"
      let raw : Except PyErr String :=
        match body with
        | none => .ok "\x7b\x7d"
        | some b =>
            match b.lookup ("original_" ++ payloadType ++ "_body") with
            | none => .ok "\x7b\x7d"
            | some (.str s) => .ok s
            | some _ => .error .typeError
      (queue2,
        match raw with
        | .error e => .error e
        | .ok s =>
            match jsonLoads s with
            | none => .error .jsonDecodeError
            | some parsed =>
                .ok (.batched
                  { statusCode := 200
                    text := JsonVal.dumps (.obj (.cons "status_code" (.num 200)
                      (.cons ("processed_" ++ ty) parsed
                        (.cons "message" (.str "Reqeust batched") .nil)))) }))
  | none => (queue, .ok (.delegated endpoint method body timeout cache))

/- ===================== process_batch failure semantics (C4) ================

The gather with return_exceptions set to true is modelled by applying the
transport to every composed call and recording each outcome, exception or
response, positionally; the trailing return None of process_batch is the
second component.  Outcomes are logged, never re-raised and never retried. -/

def processBatchRun (transport : DownstreamCall → Except PyErr HttpResponse)
    (batch : List BatchRequest) :
    List (Except PyErr HttpResponse) × Option (List HttpResponse) :=
  ((processBatchCalls batch).map transport, none)

/-- Classification done by the logging match statement: exceptions and error
status responses are logged as warnings, other responses are not. -/
def outcomeLoggedAsWarning : Except PyErr HttpResponse → Bool
  | .error _ => true
  | .ok r => HttpStatus.isError r.statusCode

/- ===================== Batch buffer state machine (C5) =====================

Modelled from the spec: the AsyncBatcher buffer and flush engine is provided
by the external async_batcher package and is not part of the sources; the
spec (section 4.1) states that submit appends the unit to the buffer, that a
flush atomically removes the current buffer contents and hands them to the
dispatcher as one cohort, and that a normal shutdown drains the remaining
buffer as a final cohort. -/

inductive BatchOp where
  | submit (r : BatchRequest)
  | flush
deriving DecidableEq

structure Buffer where
  pending : List BatchRequest
  cohorts : List (List BatchRequest)
deriving DecidableEq

def Buffer.step : Buffer → BatchOp → Buffer
  | s, .submit r => { s with pending := s.pending ++ [r] }
  | s, .flush => { pending := [], cohorts := s.cohorts ++ [s.pending] }

def Buffer.run (ops : List BatchOp) : Buffer :=
  ops.foldl Buffer.step ⟨[], []⟩

/-- Units submitted over an operation sequence, in submission order. -/
def submittedOf (ops : List BatchOp) : List BatchRequest :=
  ops.filterMap (fun op => match op with | .submit r => some r | .flush => none)

/-- Normal shutdown: the pending buffer is flushed one last time. -/
def drainRun (ops : List BatchOp) : Buffer :=
  Buffer.run (ops ++ [.flush])

/-- Length of the requests array carried by a downstream call, zero when the
call has no body. -/
def callRequestsCount (c : DownstreamCall) : Nat :=
  match c.body with
  | none => 0
  | some j =>
      match j.getKey "requests" with
      | some (.arr a) => a.length
      | _ => 0

def cohortDispatchedBodies (cohort : List BatchRequest) : Nat :=
  ((processBatchCalls cohort).map callRequestsCount).sum

def totalDispatchedBodies (ops : List BatchOp) : Nat :=
  (((drainRun ops).cohorts).map cohortDispatchedBodies).sum

/- ===================== Token gated call wrapper (control/__init__.py) ======

Model of AlltrueAPIClient._request: a bounded retry loop.  The token manager
and the HTTP client are oracles indexed by the attempt counter; the list of
booleans records the refresh flag of every token fetch performed. -/

def MAX_TOKEN_REFRESH_RETRIES : Nat := 3

def synthesizedAuthFailure : HttpResponse :=
  { statusCode := 401, text := "Too many token refresh errors. Giving up." }

def requestRetry (getToken : Nat → Bool → Option String)
    (doCall : Nat → String → HttpResponse) :
    Nat → Nat → List Bool → HttpResponse × List Bool
  | 0, _, fetches => (synthesizedAuthFailure, fetches)
  | Nat.succ rem, count, fetches =>
      let refresh := decide (0 < count)
      let fetches2 := fetches ++ [refresh]
      match getToken count refresh with
      | none => requestRetry getToken doCall rem (count + 1) fetches2
      | some tok =>
          let reply := doCall count tok
          if HttpStatus.isUnauthorized reply.statusCode then
            requestRetry getToken doCall rem (count + 1) fetches2
          else (reply, fetches2)

/-- Model of AlltrueAPIClient._request: the loop runs while the error count
stays below MAX_TOKEN_REFRESH_RETRIES, fetching a token (refresh forced from
the second attempt on), issuing the call when a token was obtained, returning
the reply unless its status is 401 or 403, and falling through to the
synthesized 401 once the bound is reached. -/
def clientRequest (getToken : Nat → Bool → Option String)
    (doCall : Nat → String → HttpResponse) : HttpResponse × List Bool :=
  requestRetry getToken doCall MAX_TOKEN_REFRESH_RETRIES 0 []

/- ===================== clone copy constructor (batch.py) =================== -/

/-- Shared state of a processor: identities of the configuration object and
of the HTTP client, which clone must carry over unchanged. -/
structure ProcessorCore where
  config : Nat
  client : Nat
deriving DecidableEq

inductive RuleProcessorInst where
  | plain (core : ProcessorCore)
  | batched (core : ProcessorCore) (batchSize : Nat) (queueTime : ℚ)
deriving DecidableEq

def RuleProcessorInst.coreOf : RuleProcessorInst → ProcessorCore
  | .plain c => c
  | .batched c _ _ => c

/-- Model of BatchRuleProcessor.clone: an already batched original keeps the
batch size and queue time of its own batcher, a plain original adopts the
given arguments; both share the original configuration and client. -/
def cloneProcessor (original : RuleProcessorInst) (batchSize : Nat) (queueTime : ℚ) :
    RuleProcessorInst :=
  match original with
  | .batched c bs qt => .batched c bs qt
  | .plain c => .batched c batchSize queueTime

/- ===================== close with timeout (batch.py) ======================= -/

structure CloseResult where
  warnedLoss : Bool
deriving DecidableEq

/-- Model of BatchRuleProcessor.close: the bounded drain either completes or
raises; a TimeoutError is caught and turned into a logged warning that some
batches might be lost, any other exception propagates, and on both the
completion path and the timeout path close returns normally. -/
def closeProcessor (drain : Except PyErr Unit) : Except PyErr CloseResult :=
  match drain with
  | .ok _ => .ok { warnedLoss := false }
  | .error .timeoutError => .ok { warnedLoss := true }
  | .error e => .error e

/- ===================== ChatGuardian request id cache ======================= -/

/-- Model of a Python dict with string keys as an insertion ordered
association list: inserting an existing key updates it in place, inserting a
fresh key appends. -/
def cacheInsert (c : List (String × String)) (k v : String) : List (String × String) :=
  if c.any (fun p => p.1 == k) then c.map (fun p => if p.1 == k then (k, v) else p)
  else c ++ [(k, v)]

/-- Model of _cache_prompt on the cache field: when the cache already holds at
least 20 entries the first key (next(iter(...))) is popped, then the new
binding is inserted. -/
def cachePut (c : List (String × String)) (k v : String) : List (String × String) :=
  cacheInsert (if 20 ≤ c.length then c.drop 1 else c) k v

/-- Model of _pop_prompt on the cache field: the binding of the key, if any,
is removed. -/
def cacheRemove (c : List (String × String)) (k : String) : List (String × String) :=
  c.eraseP (fun p => p.1 == k)

inductive CacheOp where
  | put (k v : String)
  | remove (k : String)
  | clear
deriving DecidableEq

/-- Cache effect of one guard or observe operation: guard_input and
observe_input put, guard_output and observe_output remove, flush clears. -/
def cacheStep (c : List (String × String)) : CacheOp → List (String × String)
  | .put k v => cachePut c k v
  | .remove k => cacheRemove c k
  | .clear => []

def cacheRun (ops : List CacheOp) (c : List (String × String)) : List (String × String) :=
  ops.foldl cacheStep c

/- ===================== RuleProcessor.process_request / process_response ====

Model of the two control plane wrappers (alltrue_guardrails/control/chat.py).
The underlying _chat call is an oracle outcome: either a raised transport
exception or an HTTP reply whose text is parsed through the json model. -/

structure ProcessResult where
  content : JsonVal
  statusCode : JsonVal
  message : Option JsonVal
deriving DecidableEq

/-- Mirrors the body handling: a dict reply payload is serialized back through
json.dumps, any other payload is kept as is. -/
def processContent (b : JsonVal) : JsonVal :=
  match b with
  | .obj o => .str (JsonVal.dumps (.obj o))
  | other => other

/-- Mirrors reply_body_json.get applied to the message key: an absent key and
a JSON null both come out as the Python None. -/
def messageField (j : JsonVal) : Option JsonVal :=
  match j.getKey "message" with
  | some v => if v.isNull then none else some v
  | none => none

/-- Model of RuleProcessor.process_request given the outcome of the chat
call: None on a raised exception, a non success status, an unparseable reply
body, or a missing key; otherwise the ProcessResult assembled from the reply
body.  A reply body that is not a JSON object makes the subscript raise a
TypeError which the blanket except turns into None, hence the getKey model. -/
def processRequestModel (chat : Except PyErr HttpResponse) : Option ProcessResult :=
  match chat with
  | .error _ => none
  | .ok reply =>
      if HttpStatus.isSuccess reply.statusCode then
        match jsonLoads reply.text with
        | none => none
        | some j =>
            match j.getKey "processed_input" with
            | none => none
            | some b =>
                match j.getKey "status_code" with
                | none => none
                | some sc =>
                    some { content := processContent b, statusCode := sc,
                           message := messageField j }
      else none

/-- Model of RuleProcessor.process_response; the status check is written as in
the source (below 200 or above 299) and the payload key is processed_output. -/
def processResponseModel (chat : Except PyErr HttpResponse) : Option ProcessResult :=
  match chat with
  | .error _ => none
  | .ok reply =>
      if reply.statusCode < 200 ∨ reply.statusCode > 299 then none
      else
        match jsonLoads reply.text with
        | none => none
        | some j =>
            match j.getKey "processed_output" with
            | none => none
            | some b =>
                match j.getKey "status_code" with
                | none => none
                | some sc =>
                    some { content := processContent b, statusCode := sc,
                           message := messageField j }

/- ===================== ChatGuardian guard path (guardrails/chat.py) ======== -/

/-- A guardable message as accepted by the guard entry points: an already
parsed message model, a plain dict, or a raw string. -/
inductive Guardable where
  | msg (content role : String)
  | dict (fields : List (String × String))
  | str (s : String)
deriving DecidableEq

def fieldsLookup : List (String × String) → String → Option String
  | [], _ => none
  | (k, v) :: tl, key =>
      match fieldsLookup tl key with
      | some r => some r
      | none => if k = key then some v else none

/-- Model of GuardableMessage.parse without an explicit role argument, as the
guard path calls it: an existing message is returned unchanged, a dict needs
a content field (a missing one raises a validation error, modelled by none)
and defaults the role to user, and a raw string becomes a user message. -/
def parseGuardable : Guardable → Option Guardable
  | .msg c r => some (.msg c r)
  | .dict fs =>
      match fieldsLookup fs "content" with
      | none => none
      | some c => some (.msg c ((fieldsLookup fs "role").getD "user"))
  | .str s => some (.msg s "user")

def parseAllGuardable (l : List Guardable) : Option (List Guardable) :=
  l.mapM parseGuardable

/-- Python truthiness of a JSON value, driving the fallback of the exception
message expression. -/
def jsonTruthy : JsonVal → Bool
  | .null => false
  | .bool b => b
  | .num n => decide (n ≠ 0)
  | .str s => decide (s ≠ "")
  | .arr .nil => false
  | .arr (.cons _ _) => true
  | .obj .nil => false
  | .obj (.cons _ _ _) => true

/-- Model of the expression message or the invalid messages literal. -/
def exceptionMessage (m : Option JsonVal) : JsonVal :=
  match m with
  | some v => if jsonTruthy v then v else .str "Invalid messages"
  | none => .str "Invalid messages"

/-- HttpStatus.is_unauthorized applied to the status code field of a process
result, which at runtime is whatever JSON value the reply carried; membership
of the 401 and 403 literals only holds for those numbers. -/
def jsonIsUnauthorized : JsonVal → Bool
  | .num n => decide (n = 401 ∨ n = 403)
  | _ => false

/-- Comparison of the status code field against 400; a non numeric value makes
the Python comparison raise a TypeError, modelled by none.  A boolean is an
int in Python (0 or 1) and compares below 400. -/
def jsonGe400 : JsonVal → Option Bool
  | .num n => some (decide (400 ≤ n))
  | .bool _ => some false
  | _ => none

/-- Outcome of a blocking guard call: a raised GuardrailsException carrying a
message, a returned message list, or a raised non guardrails Python error. -/
inductive GuardOutcome where
  | raised (message : JsonVal)
  | returned (msgs : List Guardable)
  | pyFailure
deriving DecidableEq

/-- Model of ChatGuardian.guard_input.  The processor result is the outcome of
process_request; the after hook is the registered prompt hook.  The original
messages are parsed first (the cache step), a None result returns them, an
unauthorized status raises, and otherwise the hook output is parsed and
returned. -/
def guardInput (processorResult : Option ProcessResult)
    (after : JsonVal → List Guardable) (promptMessages : List Guardable) : GuardOutcome :=
  match parseAllGuardable promptMessages with
  | none => .pyFailure
  | some prompt =>
      match processorResult with
      | none => .returned prompt
      | some r =>
          if jsonIsUnauthorized r.statusCode then .raised (exceptionMessage r.message)
          else
            match parseAllGuardable (after r.content) with
            | none => .pyFailure
            | some newPrompt => .returned newPrompt

/-- Model of ChatGuardian.guard_output.  The prompt messages are parsed by the
pop step, a None processor result returns the completion messages unchanged,
a status of 400 or above raises, and otherwise the completion hook output is
returned. -/
def guardOutput (processorResult : Option ProcessResult)
    (after : JsonVal → List Guardable)
    (promptMessages completionMessages : List Guardable) : GuardOutcome :=
  match parseAllGuardable promptMessages with
  | none => .pyFailure
  | some _ =>
      match processorResult with
      | none => .returned completionMessages
      | some r =>
          match jsonGe400 r.statusCode with
          | none => .pyFailure
          | some true => .raised (exceptionMessage r.message)
          | some false => .returned (after r.content)

/-- The original body field the batched facade echoes: original_request_body
for input endpoints, original_response_body for output endpoints. -/
def originalBodyField (ty : String) (body : Option JsonObj) : Option JsonVal :=
  match body with
  | none => none
  | some b =>
      b.lookup ("original_" ++ (if ty = "input" then "request" else "response") ++ "_body")

/-- The response synthesized by the batched facade: status 200 and a JSON
body carrying status_code 200, the echoed payload under processed input or
processed output, and the fixed message (with its source typo). -/
def syntheticBatchedResponse (ty : String) (payload : JsonVal) : HttpResponse :=
  { statusCode := 200
    text := JsonVal.dumps (.obj (.cons "status_code" (.num 200)
      (.cons ("processed_" ++ ty) payload
        (.cons "message" (.str "Reqeust batched") .nil)))) }

/- ============================================================================
Theorems
============================================================================ -/

theorem requestRetry_stop {getToken : Nat → Bool → Option String}
    {doCall : Nat → String → HttpResponse} {t : String} {count rem : Nat}
    {fs : List Bool} (hTok : getToken count (decide (0 < count)) = some t)
    (hOk : HttpStatus.isUnauthorized (doCall count t).statusCode = false) :
    requestRetry getToken doCall (rem + 1) count fs
      = (doCall count t, fs ++ [decide (0 < count)]) := by
  simp [requestRetry, hTok, hOk]

theorem requestRetry_step {getToken : Nat → Bool → Option String}
    {doCall : Nat → String → HttpResponse} {t : String} {count rem : Nat}
    {fs : List Bool} (hTok : getToken count (decide (0 < count)) = some t)
    (hUnauth : HttpStatus.isUnauthorized (doCall count t).statusCode = true) :
    requestRetry getToken doCall (rem + 1) count fs
      = requestRetry getToken doCall rem (count + 1) (fs ++ [decide (0 < count)]) := by
  simp [requestRetry, hTok, hUnauth]

/-- C3: on the non batched call path, when every attempt obtains a token and
every reply is 401 or 403, the wrapper performs exactly
MAX_TOKEN_REFRESH_RETRIES token fetches, the first without forcing a refresh
and all later ones forcing it, and then returns the synthesized 401 with the
fixed giving up message instead of raising; and on the first attempt whose
reply status is neither 401 nor 403 that reply is returned as is, with no
further fetches. -/
theorem c3_token_refresh_retries (getToken : Nat → Bool → Option String)
    (doCall : Nat → String → HttpResponse) (tok : Nat → String)
    (hTok : ∀ i, getToken i (decide (0 < i)) = some (tok i)) :
    ((∀ i, HttpStatus.isUnauthorized (doCall i (tok i)).statusCode = true) →
        clientRequest getToken doCall = (synthesizedAuthFailure, [false, true, true]))
      ∧ (∀ k, k < MAX_TOKEN_REFRESH_RETRIES →
          (∀ i, i < k → HttpStatus.isUnauthorized (doCall i (tok i)).statusCode = true) →
          HttpStatus.isUnauthorized (doCall k (tok k)).statusCode = false →
          clientRequest getToken doCall
            = (doCall k (tok k), (List.range (k + 1)).map (fun i => decide (0 < i)))) := by
  constructor
  · intro hAll
    show requestRetry getToken doCall 3 0 [] = _
    rw [show (3 : Nat) = 2 + 1 from rfl, requestRetry_step (hTok 0) (hAll 0),
      show (2 : Nat) = 1 + 1 from rfl, requestRetry_step (hTok 1) (hAll 1),
      show (1 : Nat) = 0 + 1 from rfl, requestRetry_step (hTok 2) (hAll 2)]
    simp [requestRetry]
  · intro k hk hPrev hStop
    have hk3 : k < 3 := hk
    show requestRetry getToken doCall 3 0 [] = _
    interval_cases k
    · rw [show (3 : Nat) = 2 + 1 from rfl, requestRetry_stop (hTok 0) hStop]
      exact congrArg _ (by decide)
    · rw [show (3 : Nat) = 2 + 1 from rfl,
        requestRetry_step (hTok 0) (hPrev 0 (by omega)),
        show (2 : Nat) = 1 + 1 from rfl, requestRetry_stop (hTok 1) hStop]
      exact congrArg _ (by decide)
    · rw [show (3 : Nat) = 2 + 1 from rfl,
        requestRetry_step (hTok 0) (hPrev 0 (by omega)),
        show (2 : Nat) = 1 + 1 from rfl,
        requestRetry_step (hTok 1) (hPrev 1 (by omega)),
        show (1 : Nat) = 0 + 1 from rfl, requestRetry_stop (hTok 2) hStop]
      exact congrArg _ (by decide)

theorem c3_token_refresh_retries_witness :
    clientRequest (fun _ _ => some "tk") (fun _ _ => { statusCode := 401, text := "" })
      = (synthesizedAuthFailure, [false, true, true]) :=
  (c3_token_refresh_retries (fun _ _ => some "tk")
      (fun _ _ => { statusCode := 401, text := "" }) (fun _ => "tk")
      (fun _ => rfl)).1 (fun _ => rfl)

/-- C4: within one cohort, process_batch gathers all group calls with
exception capture: the sequence of outcomes is exactly the transport applied
to each composed call positionally, so a raised exception for one group
leaves every sibling group outcome what its own call produces, and the
function itself returns None instead of re-raising or retrying. -/
theorem c4_group_failure_isolation (transport : DownstreamCall → Except PyErr HttpResponse)
    (batch : List BatchRequest) :
    (processBatchRun transport batch).2 = none
      ∧ (processBatchRun transport batch).1 = (processBatchCalls batch).map transport
      ∧ (∀ i : Nat, ((processBatchRun transport batch).1)[i]?
          = ((processBatchCalls batch)[i]?).map transport) := by
  refine ⟨rfl, rfl, ?_⟩
  intro i
  simp [processBatchRun]

/-- C6 counterexample: cloning an already batched processor with batch size 5
and queue time 3 does not produce a processor with those parameters; the
original parameters 7 and 2 are kept instead. -/
theorem c6_clone_counterexample :
    cloneProcessor (.batched ⟨0, 0⟩ 7 2) 5 3 ≠ .batched ⟨0, 0⟩ 5 3 := by
  intro h
  simp only [cloneProcessor, RuleProcessorInst.batched.injEq] at h
  exact absurd h.2.1 (by norm_num)

/-- C6 amended: clone returns a new batched processor sharing the original
configuration and client; a plain original is given the requested batch size
and queue time, while an already batched original keeps the parameters of its
own batcher, ignoring the requested ones. -/
theorem c6_clone_amended (core : ProcessorCore) (bs0 : Nat) (qt0 : ℚ)
    (bs : Nat) (qt : ℚ) :
    cloneProcessor (.plain core) bs qt = .batched core bs qt
      ∧ cloneProcessor (.batched core bs0 qt0) bs qt = .batched core bs0 qt0
      ∧ ∀ original, (cloneProcessor original bs qt).coreOf = original.coreOf := by
  refine ⟨rfl, rfl, ?_⟩
  intro original
  cases original <;> rfl

/-- C7: close catches the TimeoutError of the bounded drain and returns
normally with the warning that batches might be lost recorded; a drain that
completes in time also returns normally, without the warning. -/
theorem c7_close_timeout_returns_normally :
    closeProcessor (.error .timeoutError) = .ok { warnedLoss := true }
      ∧ closeProcessor (.ok ()) = .ok { warnedLoss := false } :=
  ⟨rfl, rfl⟩

theorem length_cacheInsert_le (c : List (String × String)) (k v : String) :
    (cacheInsert c k v).length ≤ c.length + 1 := by
  unfold cacheInsert
  split
  · simp
  · simp

theorem length_cachePut_le (c : List (String × String)) (k v : String)
    (h : c.length ≤ 20) : (cachePut c k v).length ≤ 20 := by
  unfold cachePut
  by_cases h20 : 20 ≤ c.length
  · have h1 : (cacheInsert (c.drop 1) k v).length ≤ (c.drop 1).length + 1 :=
      length_cacheInsert_le _ _ _
    rw [if_pos h20]
    have : (c.drop 1).length = c.length - 1 := by simp
    omega
  · have h1 : (cacheInsert c k v).length ≤ c.length + 1 := length_cacheInsert_le _ _ _
    rw [if_neg h20]
    omega

theorem length_cacheStep_le (c : List (String × String)) (op : CacheOp)
    (h : c.length ≤ 20) : (cacheStep c op).length ≤ 20 := by
  cases op with
  | put k v => exact length_cachePut_le c k v h
  | remove k =>
      have := List.length_eraseP_le (p := fun p => p.1 == k) c
      simpa [cacheStep, cacheRemove] using le_trans this h
  | clear => simp [cacheStep]

/-- C10: the request id cache never grows beyond 20 entries: starting from any
cache respecting the bound, every sequence of guard and observe cache
operations (insertions with eviction, removals, clears) preserves it. -/
theorem c10_rid_cache_bound (ops : List CacheOp) (c : List (String × String))
    (h : c.length ≤ 20) : (cacheRun ops c).length ≤ 20 := by
  induction ops generalizing c with
  | nil => simpa [cacheRun] using h
  | cons op rest ih =>
      have hstep := length_cacheStep_le c op h
      simpa [cacheRun, List.foldl_cons] using ih (cacheStep c op) hstep

theorem c10_rid_cache_bound_witness :
    ([] : List (String × String)).length ≤ 20
      ∧ (cacheRun [CacheOp.put "a" "r1", CacheOp.remove "a"] []).length ≤ 20 :=
  ⟨by decide, c10_rid_cache_bound [CacheOp.put "a" "r1", CacheOp.remove "a"] [] (by decide)⟩

theorem methodStr_chars (m : HttpMethod) :
    ']' ∉ (HttpMethod.toStr m).toList ∧ '\n' ∉ (HttpMethod.toStr m).toList := by
  cases m <;> exact ⟨by decide, by decide⟩

theorem splitLastBracket_eq_none {l : List Char} (h : ']' ∉ l) :
    splitLastBracket l = none := by
  induction l with
  | nil => rfl
  | cons c rest ih =>
      have hc : c ≠ ']' := fun e => h (by simp [e])
      have hrest : ']' ∉ rest := fun e => h (List.mem_cons_of_mem _ e)
      simp [splitLastBracket, ih hrest, hc]

theorem splitLastBracket_append {m e : List Char} (hm : ']' ∉ m) (he : ']' ∉ e) :
    splitLastBracket (m ++ ']' :: e) = some (m, e) := by
  induction m with
  | nil =>
      simp [splitLastBracket, splitLastBracket_eq_none he]
  | cons c m2 ih =>
      have hm2 : ']' ∉ m2 := fun h => hm (List.mem_cons_of_mem _ h)
      simp [splitLastBracket, ih hm2]

theorem splitLastBracket_isSome_of_mem {l : List Char} (h : ']' ∈ l) :
    (splitLastBracket l).isSome := by
  induction l with
  | nil => simp at h
  | cons c rest ih =>
      by_cases hr : ']' ∈ rest
      · obtain ⟨pr, hpr⟩ := Option.isSome_iff_exists.mp (ih hr)
        simp [splitLastBracket, hpr]
      · have hc : c = ']' := by
          rcases List.mem_cons.mp h with h1 | h2
          · exact h1.symm
          · exact absurd h2 hr
        simp [splitLastBracket, splitLastBracket_eq_none hr, hc]

theorem takeWhile_all {p : Char → Bool} {l : List Char} (h : ∀ a ∈ l, p a = true) :
    l.takeWhile p = l := by
  induction l with
  | nil => rfl
  | cons c rest ih =>
      rw [List.takeWhile_cons, if_pos (h c (List.mem_cons_self c rest))]
      rw [ih (fun a ha => h a (List.mem_cons_of_mem _ ha))]

theorem keyFunc_toList (r : BatchRequest) :
    (keyFunc r).toList
      = '[' :: ((HttpMethod.toStr r.method).toList ++ ']' :: r.endpoint.toList) := by
  show (keyFunc r).data = _
  simp [keyFunc, String.data_append]

theorem regexKeySearch_keyFunc (r : BatchRequest)
    (he1 : ']' ∉ r.endpoint.toList) (he2 : '\n' ∉ r.endpoint.toList) :
    regexKeySearch (keyFunc r).toList
      = some (HttpMethod.toStr r.method, r.endpoint) := by
  obtain ⟨hm1, hm2⟩ := methodStr_chars r.method
  rw [keyFunc_toList]
  rw [regexKeySearch]
  rw [if_pos rfl]
  have hline : ((HttpMethod.toStr r.method).toList ++ ']' :: r.endpoint.toList).takeWhile
      (fun d => d ≠ '\n') = (HttpMethod.toStr r.method).toList ++ ']' :: r.endpoint.toList := by
    apply takeWhile_all
    intro a ha
    rcases List.mem_append.mp ha with h | h
    · have : a ≠ '\n' := fun e => hm2 (e ▸ h)
      simpa using this
    · rcases List.mem_cons.mp h with h1 | h2
      · subst h1; decide
      · have : a ≠ '\n' := fun e => he2 (e ▸ h2)
        simpa using this
  rw [hline, splitLastBracket_append hm1 he1]
  have h1 : String.mk (HttpMethod.toStr r.method).toList = HttpMethod.toStr r.method := rfl
  have h2 : String.mk r.endpoint.toList = r.endpoint := rfl
  simp [h1, h2]

theorem regexKeySearch_keyFunc_isSome (r : BatchRequest) :
    (regexKeySearch (keyFunc r).toList).isSome := by
  obtain ⟨hm1, hm2⟩ := methodStr_chars r.method
  rw [keyFunc_toList]
  rw [regexKeySearch]
  rw [if_pos rfl]
  have hline : ((HttpMethod.toStr r.method).toList ++ ']' :: r.endpoint.toList).takeWhile
      (fun d => d ≠ '\n')
      = (HttpMethod.toStr r.method).toList ++ ']' :: (r.endpoint.toList.takeWhile (fun d => d ≠ '\n')) := by
    rw [List.takeWhile_append_of_pos]
    · rw [List.takeWhile_cons, if_pos (by decide)]
    · intro a ha
      have : a ≠ '\n' := fun e => hm2 (e ▸ ha)
      simpa using this
  rw [hline]
  have hmem : ']' ∈ (HttpMethod.toStr r.method).toList
      ++ ']' :: (r.endpoint.toList.takeWhile (fun d => d ≠ '\n')) := by
    simp
  obtain ⟨pr, hpr⟩ := Option.isSome_iff_exists.mp (splitLastBracket_isSome_of_mem hmem)
  rw [hpr]
  rfl

theorem groupRunsFuel_flatten :
    ∀ (fuel : Nat) (l : List BatchRequest), l.length ≤ fuel →
      ((groupRunsFuel fuel l).map (fun g => g.1 :: g.2)).flatten = l := by
  intro fuel
  induction fuel with
  | zero =>
      intro l h
      have : l = [] := List.eq_nil_of_length_eq_zero (Nat.le_zero.mp h)
      subst this
      rfl
  | succ fuel ih =>
      intro l h
      cases l with
      | nil => rfl
      | cons a rest =>
          have hlen : (rest.dropWhile (fun b => keyFunc b == keyFunc a)).length ≤ fuel := by
            have h1 := (List.dropWhile_sublist (l := rest)
              (fun b => keyFunc b == keyFunc a)).length_le
            have h2 : rest.length ≤ fuel := by
              simp only [List.length_cons] at h
              omega
            omega
          simp only [groupRunsFuel, List.map_cons, List.flatten_cons, ih _ hlen]
          rw [List.cons_append, List.takeWhile_append_dropWhile]

theorem groupRuns_flatten (l : List BatchRequest) :
    ((groupRuns l).map (fun g => g.1 :: g.2)).flatten = l :=
  groupRunsFuel_flatten l.length l le_rfl

theorem mem_of_mem_groupRuns {l : List BatchRequest}
    {g : BatchRequest × List BatchRequest} (hg : g ∈ groupRuns l) :
    ∀ x ∈ g.1 :: g.2, x ∈ l := by
  intro x hx
  rw [← groupRuns_flatten l]
  exact List.mem_flatten.mpr ⟨g.1 :: g.2, List.mem_map_of_mem _ hg, hx⟩

theorem groupRunsFuel_run_key :
    ∀ (fuel : Nat) (l : List BatchRequest), l.length ≤ fuel →
      ∀ g ∈ groupRunsFuel fuel l, ∀ b ∈ g.2, keyFunc b = keyFunc g.1 := by
  intro fuel
  induction fuel with
  | zero =>
      intro l h g hg
      have : l = [] := List.eq_nil_of_length_eq_zero (Nat.le_zero.mp h)
      subst this
      simp [groupRunsFuel] at hg
  | succ fuel ih =>
      intro l h g hg b hb
      cases l with
      | nil => simp [groupRunsFuel] at hg
      | cons a rest =>
          have hlen : (rest.dropWhile (fun c => keyFunc c == keyFunc a)).length ≤ fuel := by
            have h1 := (List.dropWhile_sublist (l := rest)
              (fun c => keyFunc c == keyFunc a)).length_le
            have h2 : rest.length ≤ fuel := by
              simp only [List.length_cons] at h
              omega
            omega
          simp only [groupRunsFuel, List.mem_cons] at hg
          rcases hg with hg | hg
          · subst hg
            have := List.mem_takeWhile_imp hb
            exact of_decide_eq_true (by simpa using this)
          · exact ih _ hlen g hg b hb

theorem groupRuns_run_key {l : List BatchRequest}
    {g : BatchRequest × List BatchRequest} (hg : g ∈ groupRuns l) :
    ∀ b ∈ g.2, keyFunc b = keyFunc g.1 :=
  groupRunsFuel_run_key l.length l le_rfl g hg

theorem dropWhile_key_ne {a : BatchRequest} {rest : List BatchRequest}
    (hs : List.Pairwise keyLe (a :: rest)) :
    ∀ x ∈ rest.dropWhile (fun b => keyFunc b == keyFunc a), keyFunc x ≠ keyFunc a := by
  intro x hx
  set p := fun b => keyFunc b == keyFunc a with hp
  cases hd : rest.dropWhile p with
  | nil => rw [hd] at hx; simp at hx
  | cons d0 d2 =>
      have hd0 : p d0 = false := by
        have h0 := List.head?_dropWhile_not p rest
        rw [hd] at h0
        simpa using h0
      have hd0ne : keyFunc d0 ≠ keyFunc a := by
        intro e
        rw [hp] at hd0
        simp only [e] at hd0
        simp at hd0
      have hsub : List.Sublist (rest.dropWhile p) rest := List.dropWhile_sublist p
      rw [hd] at hx
      rcases List.mem_cons.mp hx with h1 | h2
      · subst h1; exact hd0ne
      · intro hxa
        have hrestPW : List.Pairwise keyLe rest := (List.pairwise_cons.mp hs).2
        have hdPW : List.Pairwise keyLe (d0 :: d2) := by
          have := hrestPW.sublist (hd ▸ hsub)
          exact this
        have hd0x : keyLe d0 x := (List.pairwise_cons.mp hdPW).1 x h2
        have had0 : keyLe a d0 := by
          have hmem : d0 ∈ rest := (hd ▸ hsub).subset (List.mem_cons_self _ _)
          exact (List.pairwise_cons.mp hs).1 d0 hmem
        have hd0a : keyLe d0 a := by
          unfold keyLe at hd0x ⊢
          rw [hxa] at hd0x
          exact hd0x
        exact hd0ne (keyLe_antisymm hd0a had0)

theorem sorted_filter_head {a : BatchRequest} {rest : List BatchRequest}
    (hs : List.Pairwise keyLe (a :: rest)) :
    (a :: rest).filter (fun r => keyFunc r == keyFunc a)
      = a :: rest.takeWhile (fun r => keyFunc r == keyFunc a) := by
  set p := fun r => keyFunc r == keyFunc a with hp
  rw [List.filter_cons, if_pos (by simp [hp])]
  have hsplit : rest = rest.takeWhile p ++ rest.dropWhile p :=
    (List.takeWhile_append_dropWhile p rest).symm
  conv_lhs => rw [hsplit]
  rw [List.filter_append]
  have h1 : (rest.takeWhile p).filter p = rest.takeWhile p := by
    apply List.filter_eq_self.mpr
    intro b hb
    exact List.mem_takeWhile_imp hb
  have h2 : (rest.dropWhile p).filter p = [] := by
    apply List.filter_eq_nil_iff.mpr
    intro b hb
    have := dropWhile_key_ne hs b hb
    simp [hp, this]
  rw [h1, h2, List.append_nil]

theorem groupRunsFuel_sorted_char :
    ∀ (fuel : Nat) (l : List BatchRequest), l.length ≤ fuel →
      List.Pairwise keyLe l →
      ∀ g ∈ groupRunsFuel fuel l,
        g.1 :: g.2 = l.filter (fun r => keyFunc r == keyFunc g.1) := by
  intro fuel
  induction fuel with
  | zero =>
      intro l h _ g hg
      have : l = [] := List.eq_nil_of_length_eq_zero (Nat.le_zero.mp h)
      subst this
      simp [groupRunsFuel] at hg
  | succ fuel ih =>
      intro l h hPW g hg
      cases l with
      | nil => simp [groupRunsFuel] at hg
      | cons a rest =>
          set p := fun b => keyFunc b == keyFunc a with hp
          have hlen : (rest.dropWhile p).length ≤ fuel := by
            have h1 := (List.dropWhile_sublist (l := rest) p).length_le
            have h2 : rest.length ≤ fuel := by
              simp only [List.length_cons] at h
              omega
            omega
          simp only [groupRunsFuel, List.mem_cons] at hg
          rcases hg with hg | hg
          · subst hg
            exact (sorted_filter_head hPW).symm
          · have hdPW : List.Pairwise keyLe (rest.dropWhile p) :=
              ((List.pairwise_cons.mp hPW).2).sublist (List.dropWhile_sublist p)
            have hchar := ih _ hlen hdPW g hg
            rw [hchar]
            have hgmem : g.1 ∈ rest.dropWhile p := by
              have hflat := groupRunsFuel_flatten fuel _ hlen
              have : g.1 ∈ ((groupRunsFuel fuel (rest.dropWhile p)).map
                  (fun g => g.1 :: g.2)).flatten :=
                List.mem_flatten.mpr ⟨g.1 :: g.2, List.mem_map_of_mem _ hg,
                  List.mem_cons_self _ _⟩
              rwa [hflat] at this
            have hne : keyFunc g.1 ≠ keyFunc a := dropWhile_key_ne hPW g.1 hgmem
            have hsplit : rest = rest.takeWhile p ++ rest.dropWhile p :=
              (List.takeWhile_append_dropWhile p rest).symm
            conv_rhs => rw [hsplit]
            rw [List.filter_cons, List.filter_append]
            have hfa : (keyFunc a == keyFunc g.1) = false := by
              rw [beq_eq_false_iff_ne]
              exact fun e => hne e.symm
            have hft : (rest.takeWhile p).filter (fun r => keyFunc r == keyFunc g.1) = [] := by
              apply List.filter_eq_nil_iff.mpr
              intro b hb
              have hbk : keyFunc b = keyFunc a :=
                of_decide_eq_true (by simpa [hp] using List.mem_takeWhile_imp hb)
              simp only [beq_iff_eq]
              rw [hbk]
              exact fun e => hne e.symm
            rw [hfa, hft]
            simp

theorem groupRuns_sorted_char {l : List BatchRequest} (hPW : List.Pairwise keyLe l) :
    ∀ g ∈ groupRuns l, g.1 :: g.2 = l.filter (fun r => keyFunc r == keyFunc g.1) :=
  groupRunsFuel_sorted_char l.length l le_rfl hPW

theorem groupRunsFuel_keys_nodup :
    ∀ (fuel : Nat) (l : List BatchRequest), l.length ≤ fuel →
      List.Pairwise keyLe l →
      ((groupRunsFuel fuel l).map (fun g => keyFunc g.1)).Nodup := by
  intro fuel
  induction fuel with
  | zero =>
      intro l h _
      have : l = [] := List.eq_nil_of_length_eq_zero (Nat.le_zero.mp h)
      subst this
      simp [groupRunsFuel]
  | succ fuel ih =>
      intro l h hPW
      cases l with
      | nil => simp [groupRunsFuel]
      | cons a rest =>
          set p := fun b => keyFunc b == keyFunc a with hp
          have hlen : (rest.dropWhile p).length ≤ fuel := by
            have h1 := (List.dropWhile_sublist (l := rest) p).length_le
            have h2 : rest.length ≤ fuel := by
              simp only [List.length_cons] at h
              omega
            omega
          have hdPW : List.Pairwise keyLe (rest.dropWhile p) :=
            ((List.pairwise_cons.mp hPW).2).sublist (List.dropWhile_sublist p)
          simp only [groupRunsFuel, List.map_cons]
          rw [List.nodup_cons]
          constructor
          · intro hmem
            obtain ⟨g, hg, hkey⟩ := List.mem_map.mp hmem
            have hgmem : g.1 ∈ rest.dropWhile p := by
              have hflat := groupRunsFuel_flatten fuel _ hlen
              have : g.1 ∈ ((groupRunsFuel fuel (rest.dropWhile p)).map
                  (fun g => g.1 :: g.2)).flatten :=
                List.mem_flatten.mpr ⟨g.1 :: g.2, List.mem_map_of_mem _ hg,
                  List.mem_cons_self _ _⟩
              rwa [hflat] at this
            exact dropWhile_key_ne hPW g.1 hgmem hkey
          · exact ih _ hlen hdPW

theorem groupRuns_keys_nodup {l : List BatchRequest} (hPW : List.Pairwise keyLe l) :
    ((groupRuns l).map (fun g => keyFunc g.1)).Nodup :=
  groupRunsFuel_keys_nodup l.length l le_rfl hPW

theorem filter_orderedInsert_key (k : String) (a : BatchRequest) :
    ∀ l : List BatchRequest,
      (List.orderedInsert keyLe a l).filter (fun r => keyFunc r == k)
        = if keyFunc a == k then a :: l.filter (fun r => keyFunc r == k)
          else l.filter (fun r => keyFunc r == k) := by
  intro l
  induction l with
  | nil =>
      simp only [List.orderedInsert, List.filter_cons, List.filter_nil]
  | cons b l ih =>
      rw [List.orderedInsert]
      by_cases hab : keyLe a b
      · rw [if_pos hab]
        exact List.filter_cons
      · rw [if_neg hab]
        rw [List.filter_cons, ih]
        by_cases hpa : (keyFunc a == k) = true <;> by_cases hpb : (keyFunc b == k) = true
        · exfalso
          apply hab
          have h1 : keyFunc a = k := by simpa using hpa
          have h2 : keyFunc b = k := by simpa using hpb
          unfold keyLe
          rw [h1, h2]
          exact charListLe_refl _
        · simp [hpa, hpb, List.filter_cons]
        · simp [hpa, hpb, List.filter_cons]
        · simp [hpa, hpb, List.filter_cons]

theorem filter_insertionSort_key (k : String) (l : List BatchRequest) :
    (List.insertionSort keyLe l).filter (fun r => keyFunc r == k)
      = l.filter (fun r => keyFunc r == k) := by
  induction l with
  | nil => rfl
  | cons a l ih =>
      rw [List.insertionSort, filter_orderedInsert_key, ih, List.filter_cons]

theorem filterMap_eq_map_of {α β : Type _} {f : α → Option β} {g : α → β} :
    ∀ l : List α, (∀ x ∈ l, f x = some (g x)) → l.filterMap f = l.map g := by
  intro l
  induction l with
  | nil => intro _; rfl
  | cons a l ih =>
      intro h
      rw [List.filterMap_cons, h a (List.mem_cons_self _ _), List.map_cons,
        ih (fun x hx => h x (List.mem_cons_of_mem _ hx))]

theorem mem_sortedBatch_iff {batch : List BatchRequest} {r : BatchRequest} :
    r ∈ sortedBatch batch ↔ r ∈ batch :=
  (List.perm_insertionSort keyLe batch).mem_iff

/-- C1 counterexample: a cohort with the single unit (POST, "/a]b", no body)
produces a downstream call whose target is not the batch path of the group
endpoint: the greedy regex re parses the key up to the last closing bracket,
so the code calls /batch/b while the claimed target is /batch/a]b. -/
theorem c1_grouping_counterexample :
    processBatchCalls [{ endpoint := "/a]b", method := .POST, body := none }]
      ≠ specGroupCalls [{ endpoint := "/a]b", method := .POST, body := none }] := by
  decide

/-- C1 amended: restricted to cohorts whose endpoints contain no closing
bracket and no newline (so the regex recovers each grouping key exactly), the
dispatcher issues exactly one call per distinct grouping key: the call list
coincides with the claimed one (target /batch/ plus the group endpoint
without its leading slash, envelope of the non None bodies, or no body when
all bodies are None), the run keys are pairwise distinct, every run is the
subsequence of the cohort sharing its key (stable grouping), every unit of
the cohort is covered by some run, and the number of calls equals the number
of runs. -/
theorem c1_grouping_amended (batch : List BatchRequest)
    (hE : ∀ r ∈ batch, ']' ∉ r.endpoint.toList ∧ '\n' ∉ r.endpoint.toList) :
    processBatchCalls batch = specGroupCalls batch
      ∧ ((groupRuns (sortedBatch batch)).map (fun g => keyFunc g.1)).Nodup
      ∧ (∀ g ∈ groupRuns (sortedBatch batch),
          g.1 :: g.2 = batch.filter (fun r => keyFunc r == keyFunc g.1))
      ∧ (∀ r ∈ batch, ∃ g ∈ groupRuns (sortedBatch batch), keyFunc g.1 = keyFunc r)
      ∧ (processBatchCalls batch).length = (groupRuns (sortedBatch batch)).length := by
  have hPW : List.Pairwise keyLe (sortedBatch batch) :=
    List.sorted_insertionSort keyLe batch
  have hEq : processBatchCalls batch = specGroupCalls batch := by
    unfold processBatchCalls specGroupCalls
    apply filterMap_eq_map_of
    intro g hg
    have hmem : g.1 ∈ batch :=
      mem_sortedBatch_iff.mp (mem_of_mem_groupRuns hg g.1 (List.mem_cons_self _ _))
    obtain ⟨h1, h2⟩ := hE g.1 hmem
    unfold groupCall
    rw [regexKeySearch_keyFunc g.1 h1 h2]
    rfl
  refine ⟨hEq, groupRuns_keys_nodup hPW, ?_, ?_, ?_⟩
  · intro g hg
    rw [groupRuns_sorted_char hPW g hg]
    exact filter_insertionSort_key (keyFunc g.1) batch
  · intro r hr
    have hrs : r ∈ sortedBatch batch := mem_sortedBatch_iff.mpr hr
    rw [← groupRuns_flatten (sortedBatch batch)] at hrs
    obtain ⟨m, hm, hrm⟩ := List.mem_flatten.mp hrs
    obtain ⟨g, hg, hgm⟩ := List.mem_map.mp hm
    subst hgm
    refine ⟨g, hg, ?_⟩
    rcases List.mem_cons.mp hrm with h1 | h2
    · rw [h1]
    · exact (groupRuns_run_key hg r h2).symm
  · rw [hEq]
    unfold specGroupCalls
    exact List.length_map _ _

theorem c1_grouping_amended_witness :
    (∀ r ∈ ([{ endpoint := "/a", method := .POST, body := some (.num 1) },
        { endpoint := "/a", method := .POST, body := some (.num 2) },
        { endpoint := "/b", method := .GET, body := none }] : List BatchRequest),
        ']' ∉ r.endpoint.toList ∧ '\n' ∉ r.endpoint.toList)
      ∧ processBatchCalls [{ endpoint := "/a", method := .POST, body := some (.num 1) },
          { endpoint := "/a", method := .POST, body := some (.num 2) },
          { endpoint := "/b", method := .GET, body := none }]
        = specGroupCalls [{ endpoint := "/a", method := .POST, body := some (.num 1) },
            { endpoint := "/a", method := .POST, body := some (.num 2) },
            { endpoint := "/b", method := .GET, body := none }]
      ∧ processBatchCalls [{ endpoint := "/a", method := .POST, body := some (.num 1) },
          { endpoint := "/a", method := .POST, body := some (.num 2) },
          { endpoint := "/b", method := .GET, body := none }]
        = [{ endpoint := "/batch/b", method := "GET", body := none,
             timeout := some 3, cache := false },
           { endpoint := "/batch/a", method := "POST",
             body := some (.obj (.cons "requests"
               (.arr (.cons (.num 1) (.cons (.num 2) .nil))) .nil)),
             timeout := some 3, cache := false }] :=
  ⟨by decide, (c1_grouping_amended _ (by decide)).1, by decide⟩

theorem JsonArr.length_ofList (l : List JsonVal) : (JsonArr.ofList l).length = l.length := by
  induction l with
  | nil => rfl
  | cons j rest ih =>
      show 1 + (JsonArr.ofList rest).length = rest.length + 1
      rw [ih]
      omega

theorem callRequestsCount_envelope (ep m : String) (t : Option ℚ) (c : Bool)
    (bodies : List JsonVal) :
    callRequestsCount
      { endpoint := ep, method := m, body := envelope bodies, timeout := t, cache := c }
      = bodies.length := by
  unfold envelope callRequestsCount
  by_cases h : bodies.length > 0
  · rw [if_pos h]
    simp [JsonVal.getKey, JsonObj.lookup, JsonArr.length_ofList]
  · rw [if_neg h]
    show 0 = bodies.length
    omega

theorem filterMap_groupCall_counts :
    ∀ gs : List (BatchRequest × List BatchRequest),
      ((gs.filterMap groupCall).map callRequestsCount).sum
        = (gs.map (fun g => (groupBodies g).length)).sum := by
  intro gs
  induction gs with
  | nil => rfl
  | cons g gs ih =>
      obtain ⟨me, hme⟩ :=
        Option.isSome_iff_exists.mp (regexKeySearch_keyFunc_isSome g.1)
      have hsome : groupCall g = some
          { endpoint := "/batch/" ++ stripSlash me.2, method := me.1,
            body := envelope (groupBodies g), timeout := some DEFAULT_BATCH_TIMEOUT,
            cache := false } := by
        unfold groupCall
        rw [hme]
        rfl
      rw [List.filterMap_cons, hsome]
      simp only [List.map_cons, List.sum_cons, callRequestsCount_envelope]
      rw [ih]
      try rfl

theorem groups_bodies_sum :
    ∀ gs : List (BatchRequest × List BatchRequest),
      (gs.map (fun g => (groupBodies g).length)).sum
        = ((gs.map (fun g => g.1 :: g.2)).flatten.filterMap (fun r => r.body)).length := by
  intro gs
  induction gs with
  | nil => rfl
  | cons g gs ih =>
      simp only [List.map_cons, List.sum_cons, List.flatten_cons,
        List.filterMap_append, List.length_append, ih]
      rfl

theorem cohortDispatchedBodies_eq (cohort : List BatchRequest) :
    cohortDispatchedBodies cohort
      = (cohort.filter (fun r => r.body.isSome)).length := by
  unfold cohortDispatchedBodies processBatchCalls
  rw [filterMap_groupCall_counts, groups_bodies_sum, groupRuns_flatten,
    List.length_filterMap_eq_countP]
  show List.countP _ (List.insertionSort keyLe cohort) = _
  rw [(List.perm_insertionSort keyLe cohort).countP_eq,
    List.countP_eq_length_filter]

theorem buffer_foldl_inv :
    ∀ (ops : List BatchOp) (s : Buffer),
      ((ops.foldl Buffer.step s).cohorts).flatten ++ (ops.foldl Buffer.step s).pending
        = s.cohorts.flatten ++ (s.pending ++ submittedOf ops) := by
  intro ops
  induction ops with
  | nil => intro s; simp [submittedOf]
  | cons op rest ih =>
      intro s
      cases op with
      | submit r =>
          rw [List.foldl_cons, ih]
          simp [Buffer.step, submittedOf, List.filterMap_cons]
      | flush =>
          rw [List.foldl_cons, ih]
          simp [Buffer.step, submittedOf, List.filterMap_cons, List.flatten_append]

/-- C5 (spec modelled buffer): the AsyncBatcher engine itself is an external
dependency, so its buffer is modelled from the spec: submissions append to
the pending buffer, a flush atomically moves the pending units into one
cohort, and a normal shutdown performs a final flush.  Under this model every
submitted unit lands in exactly one flushed cohort, in submission order, and
the total number of bodies observed across the requests arrays of all
downstream calls of all cohorts equals the number of submitted units with a
non None body: nothing is dropped and nothing is dispatched twice. -/
theorem c5_no_loss (ops : List BatchOp) :
    ((drainRun ops).cohorts).flatten = submittedOf ops
      ∧ totalDispatchedBodies ops
          = ((submittedOf ops).filter (fun r => r.body.isSome)).length := by
  have hMain : ((drainRun ops).cohorts).flatten = submittedOf ops := by
    unfold drainRun Buffer.run
    rw [List.foldl_append]
    have hinv := buffer_foldl_inv ops ⟨[], []⟩
    simp only [List.foldl_cons, List.foldl_nil, Buffer.step]
    rw [List.flatten_append]
    simp only [List.flatten_cons, List.flatten_nil, List.append_nil]
    simpa using hinv
  refine ⟨hMain, ?_⟩
  unfold totalDispatchedBodies
  have hsum : ∀ cs : List (List BatchRequest),
      (cs.map cohortDispatchedBodies).sum
        = (cs.flatten.filter (fun r => r.body.isSome)).length := by
    intro cs
    induction cs with
    | nil => rfl
    | cons c cs ih =>
        simp only [List.map_cons, List.sum_cons, List.flatten_cons,
          List.filter_append, List.length_append, ih, cohortDispatchedBodies_eq]
  rw [hsum, hMain]

/-- C2: a call of the batched facade whose endpoint matches the process input
or process output pattern appends its unit to the batcher queue and returns a
synthesized 200 response without issuing any downstream call (the outcome is
batched, never delegated): the response body carries status_code 200 and a
processed payload equal to the JSON parse of the original body field of the
submitted body, defaulting to an empty object when the body or the field is
absent; a call on any other endpoint is delegated unchanged to the non
batched parent path. -/
theorem c2_batched_facade_echo (queue : List BatchRequest) (endpoint : String)
    (method : HttpMethod) (body : Option JsonObj) (timeout : Option ℚ) (cache : Bool) :
    (∀ ty, endpointType endpoint = some ty →
      ((batchChat queue endpoint method body timeout cache).1
          = queue ++ [mkBatchRequest endpoint method body]
        ∧ (originalBodyField ty body = none →
            (batchChat queue endpoint method body timeout cache).2
              = .ok (.batched (syntheticBatchedResponse ty (.obj .nil))))
        ∧ (∀ s j, originalBodyField ty body = some (.str s) → jsonLoads s = some j →
            (batchChat queue endpoint method body timeout cache).2
              = .ok (.batched (syntheticBatchedResponse ty j)))))
      ∧ (endpointType endpoint = none →
          batchChat queue endpoint method body timeout cache
            = (queue, .ok (.delegated endpoint method body timeout cache))) := by
  constructor
  · intro ty hty
    refine ⟨?_, ?_, ?_⟩
    · simp [batchChat, hty]
    · intro hfield
      cases body with
      | none =>
          simp only [batchChat, hty]
          rfl
      | some b =>
          have hlook : b.lookup
              ("original_" ++ (if ty = "input" then "request" else "response") ++ "_body")
              = none := by
            simpa [originalBodyField] using hfield
          simp only [batchChat, hty]
          rw [show ("original_" ++ (if ty = "input" then "request" else "response")
              ++ "_body") = ("original_" ++ (if ty = "input" then "request" else "response")
              ++ "_body") from rfl] at hlook
          simp [hlook]
          rfl
    · intro s j hfield hparse
      cases body with
      | none => simp [originalBodyField] at hfield
      | some b =>
          have hlook : b.lookup
              ("original_" ++ (if ty = "input" then "request" else "response") ++ "_body")
              = some (.str s) := by
            simpa [originalBodyField] using hfield
          simp only [batchChat, hty]
          simp [hlook, hparse]
          rfl
  · intro hnone
    simp [batchChat, hnone]

theorem c2_batched_facade_echo_witness :
    endpointType "/process-input/any" = some "input"
      ∧ (batchChat [] "/process-input/any" .POST
          (some (.cons "original_request_body" (.str "\x7b\"x\":1\x7d") .nil)) none false).1
        = [] ++ [mkBatchRequest "/process-input/any" .POST
            (some (.cons "original_request_body" (.str "\x7b\"x\":1\x7d") .nil))]
      ∧ (batchChat [] "/process-input/any" .POST
          (some (.cons "original_request_body" (.str "\x7b\"x\":1\x7d") .nil)) none false).2
        = .ok (.batched (syntheticBatchedResponse "input" (.obj (.cons "x" (.num 1) .nil)))) := by
  have h := c2_batched_facade_echo [] "/process-input/any" .POST
      (some (.cons "original_request_body" (.str "\x7b\"x\":1\x7d") .nil)) none false
  have h1 := h.1 "input" (by decide)
  exact ⟨by decide, h1.1,
    h1.2.2 "\x7b\"x\":1\x7d" (.obj (.cons "x" (.num 1) .nil)) (by decide) (by decide)⟩

/-- C9: process_request and process_response are total on every chat outcome
(the Option return is the only failure signal, nothing is re-raised): they
yield None on a raised exception, on a non success reply status, on an
unparseable reply body and on a missing processed payload or status_code key,
and otherwise a result whose content is the processed payload (serialized
back to a string when it is a JSON object), whose status code is the status_code
field of the reply body, and whose message is the message field when present. -/
theorem c9_process_wrappers (e : PyErr) (reply : HttpResponse) :
    (processRequestModel (.error e) = none ∧ processResponseModel (.error e) = none)
      ∧ (HttpStatus.isSuccess reply.statusCode = false →
          processRequestModel (.ok reply) = none)
      ∧ ((reply.statusCode < 200 ∨ reply.statusCode > 299) →
          processResponseModel (.ok reply) = none)
      ∧ (HttpStatus.isSuccess reply.statusCode = true → jsonLoads reply.text = none →
          processRequestModel (.ok reply) = none
            ∧ processResponseModel (.ok reply) = none)
      ∧ (∀ j, HttpStatus.isSuccess reply.statusCode = true → jsonLoads reply.text = some j →
          (j.getKey "processed_input" = none → processRequestModel (.ok reply) = none)
          ∧ (j.getKey "processed_output" = none → processResponseModel (.ok reply) = none)
          ∧ (j.getKey "status_code" = none →
              processRequestModel (.ok reply) = none
                ∧ processResponseModel (.ok reply) = none)
          ∧ (∀ b sc, j.getKey "processed_input" = some b → j.getKey "status_code" = some sc →
              processRequestModel (.ok reply)
                = some { content := processContent b, statusCode := sc,
                         message := messageField j })
          ∧ (∀ b sc, j.getKey "processed_output" = some b → j.getKey "status_code" = some sc →
              processResponseModel (.ok reply)
                = some { content := processContent b, statusCode := sc,
                         message := messageField j })) := by
  have hsucc : HttpStatus.isSuccess reply.statusCode = true
      ↔ ¬(reply.statusCode < 200 ∨ reply.statusCode > 299) := by
    unfold HttpStatus.isSuccess
    constructor
    · intro h
      have := of_decide_eq_true h
      omega
    · intro h
      apply decide_eq_true
      omega
  refine ⟨⟨rfl, rfl⟩, ?_, ?_, ?_, ?_⟩
  · intro h
    simp [processRequestModel, h]
  · intro h
    simp [processResponseModel, if_pos h]
  · intro hs hparse
    have hlt := hsucc.mp hs
    exact ⟨by simp [processRequestModel, hs, hparse],
      by simp [processResponseModel, hlt, hparse]⟩
  · intro j hs hparse
    have hlt := hsucc.mp hs
    refine ⟨?_, ?_, ?_, ?_, ?_⟩
    · intro hkey
      simp [processRequestModel, hs, hparse, hkey]
    · intro hkey
      simp [processResponseModel, hlt, hparse, hkey]
    · intro hkey
      constructor
      · cases hpi : j.getKey "processed_input" with
        | none => simp [processRequestModel, hs, hparse, hpi]
        | some b => simp [processRequestModel, hs, hparse, hpi, hkey]
      · cases hpo : j.getKey "processed_output" with
        | none => simp [processResponseModel, hlt, hparse, hpo]
        | some b => simp [processResponseModel, hlt, hparse, hpo, hkey]
    · intro b sc hb hsc
      simp [processRequestModel, hs, hparse, hb, hsc]
    · intro b sc hb hsc
      simp [processResponseModel, hlt, hparse, hb, hsc]

theorem c9_process_wrappers_witness :
    processRequestModel
        (.ok ⟨200, "\x7b\"processed_input\": \x7b\x7d, \"status_code\": 200\x7d"⟩)
      = some ⟨processContent (.obj .nil), .num 200,
          messageField (.obj (.cons "processed_input" (.obj .nil)
            (.cons "status_code" (.num 200) .nil)))⟩ :=
  ((c9_process_wrappers .typeError
      ⟨200, "\x7b\"processed_input\": \x7b\x7d, \"status_code\": 200\x7d"⟩).2.2.2.2
    (.obj (.cons "processed_input" (.obj .nil) (.cons "status_code" (.num 200) .nil)))
    (by decide) (by decide)).2.2.2.1 (.obj .nil) (.num 200) (by decide) (by decide)

/-- C8: on the blocking guard path the caller receives exactly one of three
outcomes.  When the processor returns None both guards return the original
messages unchanged (the hypothesis states that the prompts are already in
parsed form, so the cache parsing step is the identity on them).  When the
processor returns a result whose status code is 401 or 403 (guard_input),
respectively at least 400 (guard_output), a GuardrailsException carrying the
result message is raised.  Otherwise the payload produced by the registered
hook from the result content is returned. -/
theorem c8_guard_trichotomy (after : JsonVal → List Guardable)
    (prompts completions : List Guardable)
    (hfix : parseAllGuardable prompts = some prompts) :
    (guardInput none after prompts = .returned prompts
      ∧ guardOutput none after prompts completions = .returned completions)
    ∧ (∀ r n, r.statusCode = JsonVal.num n → (n = 401 ∨ n = 403) →
        ∀ m, r.message = some (.str m) → m ≠ "" →
          guardInput (some r) after prompts = .raised (.str m))
    ∧ (∀ r n, r.statusCode = JsonVal.num n → 400 ≤ n →
        ∀ m, r.message = some (.str m) → m ≠ "" →
          guardOutput (some r) after prompts completions = .raised (.str m))
    ∧ (∀ r n, r.statusCode = JsonVal.num n → ¬(n = 401 ∨ n = 403) →
        ∀ P, parseAllGuardable (after r.content) = some P →
          guardInput (some r) after prompts = .returned P)
    ∧ (∀ r n, r.statusCode = JsonVal.num n → n < 400 →
        guardOutput (some r) after prompts completions = .returned (after r.content)) := by
  refine ⟨⟨by simp [guardInput, hfix], by simp [guardOutput, hfix]⟩, ?_, ?_, ?_, ?_⟩
  · intro r n hstat hn m hmsg hm
    have hauth : jsonIsUnauthorized r.statusCode = true := by
      rw [hstat]
      exact decide_eq_true hn
    have ht : jsonTruthy (JsonVal.str m) = true := decide_eq_true hm
    have hmsgv : exceptionMessage r.message = .str m := by
      rw [hmsg]
      simp [exceptionMessage, ht]
    simp [guardInput, hfix, hauth, hmsgv]
  · intro r n hstat hn m hmsg hm
    have hge : jsonGe400 r.statusCode = some true := by
      rw [hstat]
      simp [jsonGe400, hn]
    have ht : jsonTruthy (JsonVal.str m) = true := decide_eq_true hm
    have hmsgv : exceptionMessage r.message = .str m := by
      rw [hmsg]
      simp [exceptionMessage, ht]
    simp [guardOutput, hfix, hge, hmsgv]
  · intro r n hstat hn P hP
    have hauth : jsonIsUnauthorized r.statusCode = false := by
      rw [hstat]
      exact decide_eq_false hn
    simp [guardInput, hfix, hauth, hP]
  · intro r n hstat hn
    have hnot : ¬(400 ≤ n) := by omega
    have hge : jsonGe400 r.statusCode = some false := by
      rw [hstat]
      simp [jsonGe400, hnot]
    simp [guardOutput, hfix, hge]

theorem c8_guard_trichotomy_witness :
    parseAllGuardable [Guardable.msg "hi" "user"] = some [Guardable.msg "hi" "user"]
      ∧ guardInput (some ⟨.str "b", .num 403, some (.str "blocked")⟩)
          (fun _ => []) [Guardable.msg "hi" "user"]
        = .raised (.str "blocked") := by
  have h := c8_guard_trichotomy (fun _ => []) [Guardable.msg "hi" "user"]
    [Guardable.msg "ok" "assistant"] (by decide)
  exact ⟨by decide, h.2.1 _ 403 rfl (Or.inr rfl) "blocked" rfl (by decide)⟩
